import Mathlib

/-!
Shallow embedding of the TCP file server/client in `src/client_code.py`
(class `FileClient` and the `FileServer` variants; claims cite the first
server variant, lines 180-375, plus `FileClient._recv_line`).

Modelling conventions:
* a byte stream (the data a socket will deliver, in order) is a `List Nat`
  of byte values; `recv` consumes from the front, and an exhausted list is
  a closed connection;
* decoded text is a `List Nat` of Unicode code points, so that ASCII
  encoding (`str.encode()` of the protocol lines, which are all ASCII)
  is the identity;
* the file system below the storage root is a partial map from resolved
  absolute paths (lists of path components) to entries;
* each server handler is a pure function from (configuration, storage,
  client stream) to (messages sent, new storage, remaining client stream).
-/

/-- Code points of a string literal, for readable protocol constants. -/
def txt (s : String) : List Nat := s.toList.map Char.toNat

/-- Whitespace set of Python `str.strip()`, restricted to ASCII
(space, tab, newline, carriage return, vertical tab, form feed). -/
def isPySpace (b : Nat) : Bool := b = 32 || b = 9 || b = 10 || b = 13 || b = 11 || b = 12

/-- Left part of Python `str.strip()`: drop leading whitespace. -/
def lstrip (s : List Nat) : List Nat := s.dropWhile isPySpace

/-- Right part of Python `str.strip()`: drop trailing whitespace. -/
def rstrip (s : List Nat) : List Nat := ((s.reverse).dropWhile isPySpace).reverse

/-- Python `str.strip()`: drop leading and trailing whitespace. -/
def pyStrip (s : List Nat) : List Nat := rstrip (lstrip s)

/-- Python `str.upper()`, restricted to ASCII letters (the command tags
compared against `"GET"`/`"PUT"` are ASCII). -/
def pyUpper (s : List Nat) : List Nat :=
  s.map (fun b => if 97 ≤ b ∧ b ≤ 122 then b - 32 else b)

/-- Python `s.split(" ", 1)`: the part before the first space, and the
remainder after it when a space occurs (`none` when it does not). -/
def splitFirstSpace (s : List Nat) : List Nat × Option (List Nat) :=
  match s.dropWhile (fun b => b ≠ 32) with
  | [] => (s.takeWhile (fun b => b ≠ 32), none)
  | _ :: tail => (s.takeWhile (fun b => b ≠ 32), some tail)

/-- Continuation byte of a UTF-8 sequence (0x80-0xBF). -/
def isCont (b : Nat) : Bool := 128 ≤ b && b ≤ 191

/-- One step of UTF-8 decoding: given a lead byte and the bytes after it,
either the decoded code point or a decoding error, together with how many
of the *following* bytes belong to the handled (or skipped) sequence.
Error skipping follows CPython's maximal-subpart handling: the invalid
lead (plus any valid continuation prefix) is dropped and decoding resumes
at the next byte. -/
def utf8Step (b : Nat) (rest : List Nat) : Option Nat × Nat :=
  if b < 128 then (some b, 0)
  else if 194 ≤ b && b ≤ 223 then
    match rest with
    | [] => (none, 0)
    | b1 :: _ =>
      if isCont b1 then (some ((b - 192) * 64 + (b1 - 128)), 1) else (none, 0)
  else if 224 ≤ b && b ≤ 239 then
    match rest with
    | [] => (none, 0)
    | b1 :: more =>
      if (if b = 224 then 160 else 128) ≤ b1 && b1 ≤ (if b = 237 then 159 else 191) then
        match more with
        | [] => (none, 1)
        | b2 :: _ =>
          if isCont b2 then (some ((b - 224) * 4096 + (b1 - 128) * 64 + (b2 - 128)), 2)
          else (none, 1)
      else (none, 0)
  else if 240 ≤ b && b ≤ 244 then
    match rest with
    | [] => (none, 0)
    | b1 :: more =>
      if (if b = 240 then 144 else 128) ≤ b1 && b1 ≤ (if b = 244 then 143 else 191) then
        match more with
        | [] => (none, 1)
        | b2 :: more2 =>
          if isCont b2 then
            match more2 with
            | [] => (none, 2)
            | b3 :: _ =>
              if isCont b3 then
                (some ((b - 240) * 262144 + (b1 - 128) * 4096 + (b2 - 128) * 64 + (b3 - 128)), 3)
              else (none, 2)
          else (none, 1)
      else (none, 0)
  else (none, 0)

/-- Decoding loop, structurally recursive on a fuel that bounds the number
of bytes still to process (each step consumes at least one byte). -/
def decodeIgnoreAux : Nat → List Nat → List Nat
  | 0, _ => []
  | _, [] => []
  | fuel + 1, b :: rest =>
    match utf8Step b rest with
    | (some cp, k) => cp :: decodeIgnoreAux fuel (rest.drop k)
    | (none, k) => decodeIgnoreAux fuel (rest.drop k)

/-- Python `bytes.decode(errors="ignore")`: UTF-8 decoding where invalid
byte sequences are dropped instead of raising; returns code points. -/
def decodeIgnore (s : List Nat) : List Nat := decodeIgnoreAux s.length s

/-- Loop body of `FileServer._recv_line` (src/client_code.py lines 349-365):
read one byte at a time; stop on end of stream, on a newline byte (which is
consumed but not stored), or after storing a byte once `len(data) > 4096`.
Returns the accumulated bytes and the unconsumed rest of the stream. -/
def recvLineAux (acc : List Nat) : List Nat → List Nat × List Nat
  | [] => (acc, [])
  | b :: rest =>
    if b = 10 then (acc, rest)
    else if (acc ++ [b]).length > 4096 then (acc ++ [b], rest)
    else recvLineAux (acc ++ [b]) rest

/-- Byte-level result of `_recv_line` on a stream: the bytes accumulated in
`data` and the part of the stream left unconsumed. -/
def recvLineBytes (s : List Nat) : List Nat × List Nat := recvLineAux [] s

/-- `FileServer._recv_line` of the first server variant (lines 349-365):
`data.decode(errors="ignore")`, no stripping. -/
def recvLineV1 (s : List Nat) : List Nat := decodeIgnore (recvLineBytes s).1

/-- `FileServer._recv_line` of the second server variant (lines 519-531) and
`FileClient._recv_line` (lines 144-155): `data.decode(errors="ignore").strip()`. -/
def recvLineV2 (s : List Nat) : List Nat := pyStrip (decodeIgnore (recvLineBytes s).1)

/-- Decimal digit value of a code point, when it is an ASCII digit. -/
def digitVal (b : Nat) : Option Nat := if 48 ≤ b ∧ b ≤ 57 then some (b - 48) else none

/-- Digit-run scanner of Python `int(str)`: digits with single underscores
allowed between digits.  `prevDigit` records whether the previous character
was a digit (so an underscore is only accepted right after a digit and must
be followed by a digit); the run must end on a digit and be nonempty. -/
def parseDigitsAux (acc : Nat) (prevDigit : Bool) : List Nat → Option Nat
  | [] => if prevDigit then some acc else none
  | b :: rest =>
    if 48 ≤ b ∧ b ≤ 57 then parseDigitsAux (acc * 10 + (b - 48)) true rest
    else if b = 95 ∧ prevDigit = true then parseDigitsAux acc false rest
    else none

/-- Nonempty digit run (with the underscore rule) as a number. -/
def parseDigits (ds : List Nat) : Option Nat := parseDigitsAux 0 false ds

/-- Python `int(s)` on text, restricted to ASCII: surrounding whitespace is
ignored, an optional sign precedes a nonempty digit run; anything else
raises (here: `none`). -/
def parsePyInt (s : List Nat) : Option Int :=
  match pyStrip s with
  | [] => none
  | b :: rest =>
    if b = 43 then (parseDigits rest).map (fun n => (n : Int))
    else if b = 45 then (parseDigits rest).map (fun n => -(n : Int))
    else (parseDigits (b :: rest)).map (fun n => (n : Int))

/-- The size extraction of `_serve_put` (line 326):
`int(size_line.strip().split(" ", 1)[1])`, where a missing second part or a
failed `int()` raises and is answered with `ERR Invalid size`. -/
def parseSizeArg (sizeLine : List Nat) : Option Int :=
  match splitFirstSpace (pyStrip sizeLine) with
  | (_, some rest) => parsePyInt rest
  | (_, none) => none

/-- Decimal digits of a natural number, as Python `str(n)` produces for the
sizes embedded in `FOUND <size>` and `SIZE <size>` lines; structurally
recursive on a fuel that bounds the number of divisions by ten. -/
def natDigitsAux : Nat → Nat → List Nat → List Nat
  | 0, _, acc => acc
  | fuel + 1, n, acc =>
    if n < 10 then (48 + n) :: acc else natDigitsAux fuel (n / 10) ((48 + n % 10) :: acc)

/-- Decimal representation of `n` as code points. -/
def natDigits (n : Nat) : List Nat := natDigitsAux (n + 1) n []

/-- Split a character list on a separator (used for `/` in path strings). -/
def splitSepAux (sep : Nat) (cur : List Nat) : List Nat → List (List Nat)
  | [] => [cur]
  | b :: rest =>
    if b = sep then cur :: splitSepAux sep [] rest else splitSepAux sep (cur ++ [b]) rest

/-- Parsing of `pathlib.Path(filename)`: whether the path is absolute, and
its components (empty components and `.` are dropped, `..` is kept). -/
def parseRelPath (fn : List Nat) : Bool × List (List Nat) :=
  (fn.head? = some 47, (splitSepAux 47 [] fn).filter (fun c => ¬(c = [] ∨ c = [46])))

/-- The `..`-elimination performed by `Path.resolve()` on an absolute
component list (at the root, `..` stays at the root). -/
def resolveComps (acc : List (List Nat)) : List (List Nat) → List (List Nat)
  | [] => acc
  | c :: rest =>
    if c = txt ".." then resolveComps acc.dropLast rest else resolveComps (acc ++ [c]) rest

/-- `(self.storage_dir / pathlib.Path(filename)).resolve()` with `root` the
already-resolved storage root: an absolute filename replaces the root
(pathlib join semantics), otherwise the components are appended, and `..`
segments are then eliminated. -/
def resolvePath (root : List (List Nat)) (fn : List Nat) : List (List Nat) :=
  let p := parseRelPath fn
  resolveComps [] ((if p.1 then [] else root) ++ p.2)

/-- `str()` of an absolute path: `/`-separated components (`/` alone for the
file-system root). -/
def pathStr (comps : List (List Nat)) : List Nat :=
  if comps = [] then [47] else (comps.map (fun c => 47 :: c)).flatten

/-- Specification notion (section 6 of the spec): the resolved path lies
inside the storage root, i.e. the root's components are a prefix of the
resolved path's components.  The code instead compares path *strings* with
`str.startswith`. -/
def withinRoot (root p : List (List Nat)) : Bool := root.isPrefixOf p

/-- A file-system entry: a regular file with its bytes, or a directory. -/
inductive Entry
  | file (content : List Nat)
  | dir
deriving DecidableEq, Repr

/-- Server-side storage: resolved path components to entry. -/
abbrev Storage : Type := List (List Nat) → Option Entry

/-- Storage with no entries. -/
def emptyStorage : Storage := fun _ => none

/-- One `sendall` performed by a handler: either a text line (sent with a
trailing newline) or raw payload bytes. -/
inductive Msg
  | line (s : List Nat)
  | raw (bs : List Nat)
deriving DecidableEq, Repr

/-- The `GET` send loop (lines 307-309), structurally recursive on a fuel
bounding the number of bytes left: read the file in 4096-byte chunks until
exhausted, writing each chunk to the socket. -/
def sendFileChunksAux : Nat → List Nat → List Nat
  | 0, _ => []
  | fuel + 1, content =>
    if content = [] then [] else content.take 4096 ++ sendFileChunksAux fuel (content.drop 4096)

/-- Bytes the `GET` send loop puts on the wire: concatenation of the
chunks as sent. -/
def sendFileChunks (content : List Nat) : List Nat := sendFileChunksAux content.length content

/-- The `PUT` receive loop (lines 334-341) for a nonnegative remaining
count, structurally recursive on a fuel bounding the iterations:
`recv(min(4096, remaining))` chunks are appended to the file until
`remaining` reaches zero or the stream is exhausted.  `recv(k)` is modelled
as delivering `min(k, available)` bytes.  Returns the received bytes and
the unconsumed rest of the stream. -/
def recvPayloadAux : Nat → Nat → List Nat → List Nat × List Nat
  | 0, _, s => ([], s)
  | fuel + 1, remaining, s =>
    if remaining = 0 then ([], s)
    else
      let chunk := s.take (min 4096 remaining)
      if chunk = [] then ([], s)
      else
        let next := recvPayloadAux fuel (remaining - chunk.length) (s.drop chunk.length)
        (chunk ++ next.1, next.2)

/-- The `PUT` receive loop: each iteration consumes at least one unit of
`remaining`, so `remaining` itself is enough fuel. -/
def recvPayload (remaining : Nat) (s : List Nat) : List Nat × List Nat :=
  recvPayloadAux remaining remaining s

/-- The `PUT` receive loop with the declared size as a Python integer:
`while remaining > 0` never runs for a nonpositive size. -/
def recvPayloadInt (size : Int) (s : List Nat) : List Nat × List Nat :=
  if size ≤ 0 then ([], s) else recvPayload size.toNat s

/-- `FileServer._serve_get` (lines 288-311): resolve the filename, reject
when `str(safe_path)` does not start with `str(root)`, answer `NOT_FOUND`
when no regular file is there, else `FOUND <size>` followed by the file's
bytes in chunks. -/
def serveGet (root : List (List Nat)) (storage : Storage) (filename : List Nat) : List Msg :=
  let safePath := resolvePath root filename
  if ¬((pathStr root).isPrefixOf (pathStr safePath) = true) then
    [Msg.line (txt "ERR Invalid filename")]
  else
    match storage safePath with
    | some (Entry.file content) =>
      [Msg.line (txt "FOUND " ++ natDigits content.length), Msg.raw (sendFileChunks content)]
    | _ => [Msg.line (txt "NOT_FOUND")]

/-- `FileServer._serve_put` (lines 313-347): send `SEND_SIZE`, read one
line; if it is empty or does not start with `SIZE ` answer
`ERR Missing size`; if the size does not parse answer `ERR Invalid size`;
otherwise receive the payload into the resolved path (note: no root
confinement check here, unlike `_serve_get`) and answer `OK` when
`remaining` reached zero, else `ERR Incomplete transfer`. -/
def servePut (root : List (List Nat)) (storage : Storage) (filename : List Nat)
    (stream : List Nat) : List Msg × Storage × List Nat :=
  let r := recvLineBytes stream
  let sizeLine := decodeIgnore r.1
  if sizeLine = [] ∨ (txt "SIZE ").isPrefixOf sizeLine = false then
    ([Msg.line (txt "SEND_SIZE"), Msg.line (txt "ERR Missing size")], storage, r.2)
  else
    match parseSizeArg sizeLine with
    | none => ([Msg.line (txt "SEND_SIZE"), Msg.line (txt "ERR Invalid size")], storage, r.2)
    | some size =>
      let safePath := resolvePath root filename
      let rp := recvPayloadInt size r.2
      let storage2 : Storage := fun p => if p = safePath then some (Entry.file rp.1) else storage p
      if size - (rp.1.length : Int) = 0 then
        ([Msg.line (txt "SEND_SIZE"), Msg.line (txt "OK")], storage2, rp.2)
      else
        ([Msg.line (txt "SEND_SIZE"), Msg.line (txt "ERR Incomplete transfer")], storage2, rp.2)

/-- Command-line parsing of `_handle_client` (lines 275-277):
`command_line.strip().split(" ", 1)`, tag upper-cased, argument the second
part when present else empty. -/
def parseCommand (commandLine : List Nat) : List Nat × List Nat :=
  let parts := splitFirstSpace (pyStrip commandLine)
  (pyUpper parts.1, parts.2.getD [])

/-- `FileServer._handle_client` (lines 263-286): read the first line; an
empty line ends the connection with no response; otherwise dispatch on the
upper-cased first token, answering `ERR Unknown command` for anything that
is not `GET` or `PUT`. -/
def handleClient (root : List (List Nat)) (storage : Storage) (stream : List Nat) :
    List Msg × Storage × List Nat :=
  let r := recvLineBytes stream
  let commandLine := decodeIgnore r.1
  if commandLine = [] then ([], storage, r.2)
  else
    let pc := parseCommand commandLine
    if pc.1 = txt "GET" then (serveGet root storage pc.2, storage, r.2)
    else if pc.1 = txt "PUT" then servePut root storage pc.2 r.2
    else ([Msg.line (txt "ERR Unknown command")], storage, r.2)

/-- Concrete resolved storage root used by the concrete-input theorems,
standing for `/home/server_files`. -/
def demoRoot : List (List Nat) := [txt "home", txt "server_files"]

/-- Storage holding one file outside `demoRoot`, in the sibling directory
`/home/server_files_evil`. -/
def evilStorage : Storage :=
  fun p => if p = [txt "home", txt "server_files_evil", txt "x"] then some (Entry.file [65]) else none

/-- Storage holding one regular file `/files/a` with content `[7]`. -/
def oneFileStorage : Storage :=
  fun p => if p = [txt "files", txt "a"] then some (Entry.file [7]) else none

/-! ### Lemmas about the line reader -/

/-- When the first newline arrives while `data` holds at most 4096 bytes,
the loop stops at the newline: it returns the accumulated bytes and has
consumed the newline but nothing after it. -/
theorem recvLineAux_newline (pre : List Nat) : ∀ (acc rest : List Nat), 10 ∉ pre →
    acc.length + pre.length ≤ 4096 → recvLineAux acc (pre ++ 10 :: rest) = (acc ++ pre, rest) := by
  induction pre with
  | nil =>
    intro acc rest _ _
    simp [recvLineAux]
  | cons c pre ih =>
    intro acc rest hmem hlen
    have hc : c ≠ 10 := fun h => hmem (by simp [h])
    have hb : ¬((acc ++ [c]).length > 4096) := by
      simp only [List.length_cons] at hlen
      simp only [List.length_append, List.length_cons, List.length_nil]
      omega
    simp only [List.cons_append, recvLineAux, if_neg hc, if_neg hb, List.append_eq]
    rw [ih (acc ++ [c]) rest (fun h => hmem (List.mem_cons_of_mem _ h))
      (by simp only [List.length_cons] at hlen
          simp only [List.length_append, List.length_cons, List.length_nil]
          omega)]
    simp

/-- When `data` reaches 4097 bytes with no newline seen, the loop stops
right after storing the 4097th byte, leaving everything further
unconsumed. -/
theorem recvLineAux_bound (pre : List Nat) : ∀ (acc : List Nat) (b : Nat) (rest : List Nat),
    10 ∉ pre → b ≠ 10 → acc.length + pre.length = 4096 →
    recvLineAux acc (pre ++ b :: rest) = (acc ++ pre ++ [b], rest) := by
  induction pre with
  | nil =>
    intro acc b rest _ hb hlen
    have hgt : (acc ++ [b]).length > 4096 := by
      simp only [List.length_nil] at hlen
      simp only [List.length_append, List.length_cons, List.length_nil]
      omega
    simp only [List.nil_append, recvLineAux, if_neg hb, if_pos hgt, List.append_nil]
  | cons c pre ih =>
    intro acc b rest hmem hb hlen
    have hc : c ≠ 10 := fun h => hmem (by simp [h])
    have hng : ¬((acc ++ [c]).length > 4096) := by
      simp only [List.length_cons] at hlen
      simp only [List.length_append, List.length_cons, List.length_nil]
      omega
    simp only [List.cons_append, recvLineAux, if_neg hc, if_neg hng, List.append_eq]
    rw [ih (acc ++ [c]) b rest (fun h => hmem (List.mem_cons_of_mem _ h)) hb
      (by simp only [List.length_cons] at hlen
          simp only [List.length_append, List.length_cons, List.length_nil]
          omega)]
    simp

/-- `_recv_line`, byte level, newline case: the bytes before the first
newline (at most 4096 of them) are returned, the newline is consumed, the
rest of the stream is untouched. -/
theorem recvLineBytes_newline (pre rest : List Nat) (hmem : 10 ∉ pre)
    (hlen : pre.length ≤ 4096) : recvLineBytes (pre ++ 10 :: rest) = (pre, rest) := by
  have := recvLineAux_newline pre [] rest hmem (by simpa using hlen)
  simpa [recvLineBytes] using this

/-- `_recv_line`, byte level, oversized case: after 4096 stored bytes and
one more non-newline byte the loop stops, having stored 4097 bytes and
consumed nothing further. -/
theorem recvLineBytes_bound (pre : List Nat) (b : Nat) (rest : List Nat) (hmem : 10 ∉ pre)
    (hb : b ≠ 10) (hlen : pre.length = 4096) :
    recvLineBytes (pre ++ b :: rest) = (pre ++ [b], rest) := by
  have := recvLineAux_bound pre [] b rest hmem hb (by simpa using hlen)
  simpa [recvLineBytes] using this

/-! ### Lemmas about the transfer loops -/

/-- Closed form of the receive loop, given enough fuel: exactly
`min remaining available` bytes are taken from the stream. -/
theorem recvPayloadAux_eq : ∀ (fuel remaining : Nat) (s : List Nat), remaining ≤ fuel →
    recvPayloadAux fuel remaining s = (s.take remaining, s.drop remaining) := by
  intro fuel
  induction fuel with
  | zero =>
    intro remaining s h
    have : remaining = 0 := by omega
    subst this
    simp [recvPayloadAux]
  | succ fuel ih =>
    intro remaining s h
    by_cases h0 : remaining = 0
    · subst h0
      simp [recvPayloadAux]
    · by_cases hc : s.take (min 4096 remaining) = []
      · have hs : s = [] := by
          rcases List.take_eq_nil_iff.mp hc with h1 | h1
          · omega
          · exact h1
        subst hs
        simp [recvPayloadAux, h0]
      · have hk1 : 0 < (s.take (min 4096 remaining)).length := List.length_pos.mpr hc
        have hkle : (s.take (min 4096 remaining)).length ≤ remaining := by
          have := List.length_take_le (min 4096 remaining) s
          omega
        have hrec := ih (remaining - (s.take (min 4096 remaining)).length)
          (s.drop (s.take (min 4096 remaining)).length) (by omega)
        have hchunk : s.take (s.take (min 4096 remaining)).length = s.take (min 4096 remaining) := by
          rw [List.length_take]
          rcases le_total (min 4096 remaining) s.length with hle | hle
          · rw [min_eq_left hle]
          · rw [min_eq_right hle, List.take_length, List.take_of_length_le hle]
        simp only [recvPayloadAux, if_neg h0, if_neg hc, hrec, Prod.mk.injEq]
        constructor
        · conv_rhs => rw [show remaining = (List.take (4096 ⊓ remaining) s).length +
            (remaining - (List.take (4096 ⊓ remaining) s).length) by omega]
          rw [List.take_add, hchunk]
        · rw [List.drop_drop]
          congr 1
          omega

/-- The receive loop takes exactly the first `remaining` bytes available
and leaves the rest of the stream in place. -/
theorem recvPayload_eq (remaining : Nat) (s : List Nat) :
    recvPayload remaining s = (s.take remaining, s.drop remaining) :=
  recvPayloadAux_eq remaining remaining s le_rfl

/-- The send loop, given enough fuel, puts exactly the file's bytes on
the wire. -/
theorem sendFileChunksAux_eq : ∀ (fuel : Nat) (content : List Nat), content.length ≤ fuel →
    sendFileChunksAux fuel content = content := by
  intro fuel
  induction fuel with
  | zero =>
    intro content h
    have : content = [] := List.length_eq_zero.mp (by omega)
    subst this
    rfl
  | succ fuel ih =>
    intro content h
    by_cases hc : content = []
    · subst hc
      rfl
    · have : (content.drop 4096).length ≤ fuel := by
        rw [List.length_drop]
        have : 0 < content.length := List.length_pos.mpr hc
        omega
      simp only [sendFileChunksAux, if_neg hc, ih _ this, List.take_append_drop]

/-- The `GET` data phase sends exactly the stored content. -/
theorem sendFileChunks_eq (content : List Nat) : sendFileChunks content = content :=
  sendFileChunksAux_eq content.length content le_rfl

/-! ### Lemmas about decoding -/

/-- Decoding is the identity on ASCII byte strings (all protocol control
lines are ASCII). -/
theorem decodeIgnoreAux_ascii : ∀ (fuel : Nat) (s : List Nat), s.length ≤ fuel →
    (∀ b ∈ s, b < 128) → decodeIgnoreAux fuel s = s := by
  intro fuel
  induction fuel with
  | zero =>
    intro s h _
    have : s = [] := List.length_eq_zero.mp (by omega)
    subst this
    rfl
  | succ fuel ih =>
    intro s hlen hmem
    match s with
    | [] => rfl
    | b :: rest =>
      have hb : b < 128 := hmem b (by simp)
      have hstep : utf8Step b rest = (some b, 0) := by simp [utf8Step, hb]
      simp only [decodeIgnoreAux, hstep, List.drop_zero]
      rw [ih rest (by simp at hlen; omega) (fun x hx => hmem x (List.mem_cons_of_mem _ hx))]

/-- `bytes.decode(errors="ignore")` is the identity on ASCII bytes. -/
theorem decodeIgnore_ascii (s : List Nat) (hmem : ∀ b ∈ s, b < 128) : decodeIgnore s = s :=
  decodeIgnoreAux_ascii s.length s le_rfl hmem

/-! ### Lemmas about stripping and splitting -/

/-- Helper: an element equal to `getLast?` is a member. -/
theorem mem_of_getLast?_eq (l : List Nat) (a : Nat) (h : l.getLast? = some a) : a ∈ l := by
  have h2 : a ∈ l.getLast? := Option.mem_def.mpr h
  rcases List.mem_getLast?_eq_getLast h2 with ⟨hne, heq⟩
  rw [heq]
  exact List.getLast_mem hne

/-- A string whose first and last characters are not whitespace is
unchanged by `str.strip()`. -/
theorem pyStrip_eq_self (l : List Nat)
    (h1 : ∀ a, l.head? = some a → isPySpace a = false)
    (h2 : ∀ a, l.getLast? = some a → isPySpace a = false) : pyStrip l = l := by
  match l with
  | [] => rfl
  | a :: t =>
    have ha : isPySpace a = false := h1 a rfl
    have hl : lstrip (a :: t) = a :: t := by
      simp [lstrip, List.dropWhile_cons, ha]
    rw [pyStrip, hl]
    cases hrev : (a :: t).reverse with
    | nil => simp at hrev
    | cons b r =>
      have hb : isPySpace b = false := by
        apply h2
        rw [← List.head?_reverse, hrev]
        rfl
      rw [rstrip, hrev]
      simp only [List.dropWhile_cons, hb, Bool.false_eq_true, if_false]
      rw [← hrev, List.reverse_reverse]

/-- `takeWhile (≠ 32)` collects exactly the part before the first space. -/
theorem takeWhile_ne_space (pre rest : List Nat) (h : 32 ∉ pre) :
    (pre ++ 32 :: rest).takeWhile (fun b => b ≠ 32) = pre := by
  induction pre with
  | nil => simp [List.takeWhile_cons]
  | cons c pre ih =>
    have hc : c ≠ 32 := fun hx => h (by simp [hx])
    have hcond : decide (c ≠ 32) = true := by simp [hc]
    rw [List.cons_append, List.takeWhile_cons, if_pos hcond,
      ih (fun hx => h (List.mem_cons_of_mem _ hx))]

/-- `dropWhile (≠ 32)` stops exactly at the first space. -/
theorem dropWhile_ne_space (pre rest : List Nat) (h : 32 ∉ pre) :
    (pre ++ 32 :: rest).dropWhile (fun b => b ≠ 32) = 32 :: rest := by
  induction pre with
  | nil => simp [List.dropWhile_cons]
  | cons c pre ih =>
    have hc : c ≠ 32 := fun hx => h (by simp [hx])
    have hcond : decide (c ≠ 32) = true := by simp [hc]
    rw [List.cons_append, List.dropWhile_cons, if_pos hcond]
    exact ih (fun hx => h (List.mem_cons_of_mem _ hx))

/-- `split(" ", 1)` on a string with a space: part before the first space,
and everything after it. -/
theorem splitFirstSpace_of_space (pre rest : List Nat) (h : 32 ∉ pre) :
    splitFirstSpace (pre ++ 32 :: rest) = (pre, some rest) := by
  rw [splitFirstSpace]
  rw [dropWhile_ne_space pre rest h, takeWhile_ne_space pre rest h]

/-- `dropWhile (≠ 32)` drops everything when there is no space. -/
theorem dropWhile_ne_space_all (l : List Nat) (h : 32 ∉ l) :
    l.dropWhile (fun b => b ≠ 32) = [] := by
  induction l with
  | nil => rfl
  | cons c t ih =>
    have hc : c ≠ 32 := fun hx => h (by simp [hx])
    have hcond : decide (c ≠ 32) = true := by simp [hc]
    rw [List.dropWhile_cons, if_pos hcond]
    exact ih (fun hx => h (List.mem_cons_of_mem _ hx))

/-- `takeWhile (≠ 32)` keeps everything when there is no space. -/
theorem takeWhile_ne_space_all (l : List Nat) (h : 32 ∉ l) :
    l.takeWhile (fun b => b ≠ 32) = l := by
  induction l with
  | nil => rfl
  | cons c t ih =>
    have hc : c ≠ 32 := fun hx => h (by simp [hx])
    have hcond : decide (c ≠ 32) = true := by simp [hc]
    rw [List.takeWhile_cons, if_pos hcond]
    rw [ih (fun hx => h (List.mem_cons_of_mem _ hx))]

/-- `split(" ", 1)` on a string without a space: a single part. -/
theorem splitFirstSpace_no_space (l : List Nat) (h : 32 ∉ l) :
    splitFirstSpace l = (l, none) := by
  rw [splitFirstSpace, dropWhile_ne_space_all l h, takeWhile_ne_space_all l h]

/-! ### Lemmas about decimal printing and parsing -/

/-- The digit-printing loop does not depend on the fuel, as long as the
fuel exceeds the number. -/
theorem natDigitsAux_fuel : ∀ (n fuel₁ fuel₂ : Nat) (acc : List Nat), n < fuel₁ → n < fuel₂ →
    natDigitsAux fuel₁ n acc = natDigitsAux fuel₂ n acc := by
  intro n
  induction n using Nat.strong_induction_on with
  | _ n ih =>
    intro fuel₁ fuel₂ acc h1 h2
    match fuel₁, fuel₂ with
    | f1 + 1, f2 + 1 =>
      by_cases h10 : n < 10
      · simp [natDigitsAux, h10]
      · have hdiv : n / 10 < n := Nat.div_lt_self (by omega) (by omega)
        simp only [natDigitsAux, if_neg h10]
        exact ih (n / 10) hdiv f1 f2 _ (by omega) (by omega)

/-- Accumulator lemma for the digit printer. -/
theorem natDigitsAux_acc : ∀ (n : Nat) (acc : List Nat),
    natDigitsAux (n + 1) n acc = natDigits n ++ acc := by
  intro n
  induction n using Nat.strong_induction_on with
  | _ n ih =>
    intro acc
    by_cases h10 : n < 10
    · simp [natDigits, natDigitsAux, h10]
    · have hdiv : n / 10 < n := Nat.div_lt_self (by omega) (by omega)
      have hstep : ∀ a : List Nat,
          natDigitsAux (n + 1) n a = natDigitsAux (n / 10 + 1) (n / 10) ((48 + n % 10) :: a) := by
        intro a
        simp only [natDigitsAux, if_neg h10]
        exact natDigitsAux_fuel (n / 10) n (n / 10 + 1) _ (by omega) (by omega)
      have hn : natDigits n = natDigits (n / 10) ++ [48 + n % 10] := by
        rw [natDigits, hstep []]
        exact ih (n / 10) hdiv [48 + n % 10]
      rw [hstep acc, ih (n / 10) hdiv ((48 + n % 10) :: acc), hn]
      simp

/-- Recurrence for `str(n)`: small numbers print as one digit. -/
theorem natDigits_lt (n : Nat) (h : n < 10) : natDigits n = [48 + n] := by
  simp [natDigits, natDigitsAux, h]

/-- Recurrence for `str(n)`: larger numbers print the quotient then the
last digit. -/
theorem natDigits_ge (n : Nat) (h : ¬n < 10) :
    natDigits n = natDigits (n / 10) ++ [48 + n % 10] := by
  have hdiv : n / 10 < n := Nat.div_lt_self (by omega) (by omega)
  rw [natDigits]
  simp only [natDigitsAux, if_neg h]
  rw [natDigitsAux_fuel (n / 10) n (n / 10 + 1) _ (by omega) (by omega)]
  exact natDigitsAux_acc (n / 10) [48 + n % 10]

/-- Every character `str(n)` produces is an ASCII digit. -/
theorem natDigits_digits : ∀ n : Nat, ∀ c ∈ natDigits n, 48 ≤ c ∧ c ≤ 57 := by
  intro n
  induction n using Nat.strong_induction_on with
  | _ n ih =>
    intro c hc
    by_cases h10 : n < 10
    · rw [natDigits_lt n h10] at hc
      simp at hc
      omega
    · rw [natDigits_ge n h10] at hc
      rcases List.mem_append.mp hc with h | h
      · exact ih (n / 10) (Nat.div_lt_self (by omega) (by omega)) c h
      · simp at h
        have := Nat.mod_lt n (show 0 < 10 by omega)
        omega

/-- `str(n)` is never empty. -/
theorem natDigits_ne_nil (n : Nat) : natDigits n ≠ [] := by
  by_cases h10 : n < 10
  · rw [natDigits_lt n h10]
    simp
  · rw [natDigits_ge n h10]
    simp

/-- Value of the digit fold over `str(n)`. -/
theorem natDigits_foldl : ∀ (n : Nat) (a : Nat),
    List.foldl (fun x c => x * 10 + (c - 48)) a (natDigits n) =
      a * 10 ^ (natDigits n).length + n := by
  intro n
  induction n using Nat.strong_induction_on with
  | _ n ih =>
    intro a
    by_cases h10 : n < 10
    · rw [natDigits_lt n h10]
      simp only [List.foldl_cons, List.foldl_nil, List.length_cons, List.length_nil,
        pow_one, Nat.zero_add]
      omega
    · rw [natDigits_ge n h10]
      rw [List.foldl_append]
      rw [ih (n / 10) (Nat.div_lt_self (by omega) (by omega)) a]
      simp only [List.foldl_cons, List.foldl_nil, List.length_append, List.length_cons,
        List.length_nil, Nat.zero_add, pow_succ]
      rw [← mul_assoc]
      generalize a * 10 ^ (natDigits (n / 10)).length = Q
      omega

/-- The digit-run scanner accepts a run of plain digits and folds them. -/
theorem parseDigitsAux_digits : ∀ (ds : List Nat) (acc : Nat),
    (∀ c ∈ ds, 48 ≤ c ∧ c ≤ 57) →
    parseDigitsAux acc true ds = some (ds.foldl (fun x c => x * 10 + (c - 48)) acc) := by
  intro ds
  induction ds with
  | nil => intro acc _; rfl
  | cons c rest ih =>
    intro acc h
    have hc : 48 ≤ c ∧ c ≤ 57 := h c (by simp)
    simp only [parseDigitsAux, if_pos hc, List.foldl_cons]
    exact ih _ (fun x hx => h x (List.mem_cons_of_mem _ hx))

/-- Parsing the decimal printout of `n` recovers `n` (digit-run level). -/
theorem parseDigits_natDigits (n : Nat) : parseDigits (natDigits n) = some n := by
  match hnd : natDigits n with
  | [] => exact absurd hnd (natDigits_ne_nil n)
  | c :: rest =>
    have hds : ∀ x ∈ c :: rest, 48 ≤ x ∧ x ≤ 57 := by
      rw [← hnd]
      exact natDigits_digits n
    have hc : 48 ≤ c ∧ c ≤ 57 := hds c (by simp)
    rw [parseDigits]
    simp only [parseDigitsAux, if_pos hc]
    rw [parseDigitsAux_digits rest (0 * 10 + (c - 48))
      (fun x hx => hds x (List.mem_cons_of_mem _ hx))]
    have hfold := natDigits_foldl n 0
    rw [hnd] at hfold
    simp only [List.foldl_cons] at hfold
    rw [hfold]
    simp

/-- An ASCII digit is not Python whitespace. -/
theorem digit_not_space (c : Nat) (h : 48 ≤ c) : isPySpace c = false := by
  simp only [isPySpace]
  simp only [Bool.or_eq_false_iff, decide_eq_false_iff_not]
  omega

/-- Parsing the decimal printout of `n` recovers `n` (Python `int()`). -/
theorem parsePyInt_natDigits (n : Nat) : parsePyInt (natDigits n) = some (n : Int) := by
  have hstrip : pyStrip (natDigits n) = natDigits n := by
    apply pyStrip_eq_self
    · intro a ha
      exact digit_not_space a (natDigits_digits n a (List.mem_of_mem_head? ha)).1
    · intro a ha
      exact digit_not_space a (natDigits_digits n a (mem_of_getLast?_eq _ a ha)).1
  rw [parsePyInt, hstrip]
  match hnd : natDigits n with
  | [] => exact absurd hnd (natDigits_ne_nil n)
  | c :: rest =>
    have hc : 48 ≤ c ∧ c ≤ 57 := natDigits_digits n c (by rw [hnd]; simp)
    have h43 : ¬c = 43 := by omega
    have h45 : ¬c = 45 := by omega
    simp only [if_neg h43, if_neg h45]
    have hp := parseDigits_natDigits n
    rw [hnd] at hp
    rw [hp]
    rfl

/-! ### The `SIZE <n>` line parses back to `n` -/

/-- The size line a well-behaved client sends (`SIZE ` followed by the
decimal size) parses back to exactly that size. -/
theorem parseSizeArg_sizeDigits (n : Nat) :
    parseSizeArg (txt "SIZE " ++ natDigits n) = some (n : Int) := by
  have hsz : txt "SIZE " = [83, 73, 90, 69, 32] := rfl
  have hstrip : pyStrip (txt "SIZE " ++ natDigits n) = txt "SIZE " ++ natDigits n := by
    apply pyStrip_eq_self
    · intro a ha
      rw [hsz] at ha
      simp only [List.cons_append, List.head?_cons, Option.some.injEq] at ha
      subst ha
      rfl
    · intro a ha
      rw [List.getLast?_append_of_ne_nil _ (natDigits_ne_nil n)] at ha
      exact digit_not_space a (natDigits_digits n a (mem_of_getLast?_eq _ a ha)).1
  rw [parseSizeArg, hstrip]
  have hshape : txt "SIZE " ++ natDigits n = [83, 73, 90, 69] ++ 32 :: natDigits n := by
    rw [hsz]
    rfl
  rw [hshape, splitFirstSpace_of_space [83, 73, 90, 69] (natDigits n) (by decide)]
  exact parsePyInt_natDigits n

/-! ### Lemmas about path resolution -/

/-- `resolve()` on components without `..` just appends them. -/
theorem resolveComps_no_dotdot : ∀ (comps acc : List (List Nat)),
    (∀ c ∈ comps, c ≠ txt "..") → resolveComps acc comps = acc ++ comps := by
  intro comps
  induction comps with
  | nil => intro acc _; simp [resolveComps]
  | cons c rest ih =>
    intro acc h
    have hc : c ≠ txt ".." := h c (by simp)
    rw [resolveComps, if_neg hc, ih (acc ++ [c]) (fun x hx => h x (List.mem_cons_of_mem _ hx))]
    simp

/-- Resolving a plain relative filename under a normalized root appends a
single component. -/
theorem resolvePath_databin (root : List (List Nat)) (hroot : txt ".." ∉ root) :
    resolvePath root (txt "data.bin") = root ++ [txt "data.bin"] := by
  have hparse : parseRelPath (txt "data.bin") = (false, [txt "data.bin"]) := by decide
  rw [resolvePath, hparse]
  simp only [if_neg (by simp : ¬(false = true)), cond_false]
  rw [resolveComps_no_dotdot (root ++ [txt "data.bin"]) []
    (fun c hc => by
      rcases List.mem_append.mp hc with h | h
      · exact fun he => hroot (he ▸ h)
      · simp at h
        subst h
        decide)]
  simp

/-- Component-wise containment in the root implies the string-prefix check
of the code succeeds (`root` is nonempty: it is an absolute directory). -/
theorem pathStr_isPrefixOf_of_append (root tl : List (List Nat)) (h : root ≠ []) :
    (pathStr root).isPrefixOf (pathStr (root ++ tl)) = true := by
  rw [List.isPrefixOf_iff_prefix]
  rw [pathStr, pathStr, if_neg h, if_neg (by simp [h])]
  rw [List.map_append, List.flatten_append]
  exact List.prefix_append _ _

/-- The code's `startswith` check passes whenever the resolved path lies
inside the root, component-wise. -/
theorem check_of_withinRoot (root p : List (List Nat)) (hroot : root ≠ [])
    (hin : withinRoot root p = true) : (pathStr root).isPrefixOf (pathStr p) = true := by
  rw [withinRoot, List.isPrefixOf_iff_prefix] at hin
  rcases hin with ⟨tl, htl⟩
  rw [← htl]
  exact pathStr_isPrefixOf_of_append root tl hroot

/-! ### Characterization of the handlers -/

/-- `recvPayloadInt` in closed form: nonpositive sizes receive nothing,
positive sizes take `min n available` bytes off the stream. -/
theorem recvPayloadInt_eq (n : Int) (s : List Nat) :
    recvPayloadInt n s =
      (if n ≤ 0 then [] else s.take n.toNat, if n ≤ 0 then s else s.drop n.toNat) := by
  rw [recvPayloadInt]
  by_cases h : n ≤ 0
  · simp [h]
  · simp [h, recvPayload, recvPayloadAux_eq n.toNat n.toNat s le_rfl]

/-- `_serve_put`, missing-size path: the guard fires, only `SEND_SIZE` and
the error line are sent, storage is untouched and no payload byte is
consumed. -/
theorem servePut_missing (root : List (List Nat)) (storage : Storage) (filename : List Nat)
    (stream : List Nat)
    (h : decodeIgnore (recvLineBytes stream).1 = [] ∨
      (txt "SIZE ").isPrefixOf (decodeIgnore (recvLineBytes stream).1) = false) :
    servePut root storage filename stream =
      ([Msg.line (txt "SEND_SIZE"), Msg.line (txt "ERR Missing size")], storage,
        (recvLineBytes stream).2) := by
  simp only [servePut]
  rw [if_pos h]

/-- `_serve_put`, invalid-size path: the size line looks right but does not
parse; only `SEND_SIZE` and the error line are sent, storage is untouched
and no payload byte is consumed. -/
theorem servePut_invalid (root : List (List Nat)) (storage : Storage) (filename : List Nat)
    (stream : List Nat)
    (h : ¬(decodeIgnore (recvLineBytes stream).1 = [] ∨
      (txt "SIZE ").isPrefixOf (decodeIgnore (recvLineBytes stream).1) = false))
    (hp : parseSizeArg (decodeIgnore (recvLineBytes stream).1) = none) :
    servePut root storage filename stream =
      ([Msg.line (txt "SEND_SIZE"), Msg.line (txt "ERR Invalid size")], storage,
        (recvLineBytes stream).2) := by
  simp only [servePut]
  rw [if_neg h]
  simp only [hp]

/-- `_serve_put`, parsed-size path: the payload loop runs, the file at the
resolved path is set to exactly the received bytes, the status line is `OK`
precisely when the received count equals the declared size. -/
theorem servePut_parsed (root : List (List Nat)) (storage : Storage) (filename : List Nat)
    (stream : List Nat) (n : Int)
    (h : ¬(decodeIgnore (recvLineBytes stream).1 = [] ∨
      (txt "SIZE ").isPrefixOf (decodeIgnore (recvLineBytes stream).1) = false))
    (hp : parseSizeArg (decodeIgnore (recvLineBytes stream).1) = some n) :
    servePut root storage filename stream =
      ([Msg.line (txt "SEND_SIZE"),
        Msg.line (if n - (((recvPayloadInt n (recvLineBytes stream).2).1.length : Int)) = 0
          then txt "OK" else txt "ERR Incomplete transfer")],
       fun p => if p = resolvePath root filename
         then some (Entry.file (recvPayloadInt n (recvLineBytes stream).2).1) else storage p,
       (recvPayloadInt n (recvLineBytes stream).2).2) := by
  simp only [servePut]
  rw [if_neg h]
  simp only [hp]
  by_cases hok : n - (((recvPayloadInt n (recvLineBytes stream).2).1.length : Int)) = 0
  · rw [if_pos hok, if_pos hok]
  · rw [if_neg hok, if_neg hok]

/-- `_serve_get` once the `startswith` check passes: dispatch on whether a
regular file is stored at the resolved path. -/
theorem serveGet_check_true (root : List (List Nat)) (storage : Storage) (filename : List Nat)
    (hchk : (pathStr root).isPrefixOf (pathStr (resolvePath root filename)) = true) :
    serveGet root storage filename =
      (match storage (resolvePath root filename) with
        | some (Entry.file content) =>
          [Msg.line (txt "FOUND " ++ natDigits content.length),
            Msg.raw (sendFileChunks content)]
        | _ => [Msg.line (txt "NOT_FOUND")]) := by
  simp only [serveGet]
  simp [hchk]

/-! ### Claim theorems -/

/-- Claim C1 (code bug, evaluated): a `PUT` filename whose resolved path
lies outside the storage root (`../evil` under `/home/server_files`
resolves to `/home/evil`) is *not* answered with `ERR Invalid filename`:
`_serve_put` has no confinement check, accepts the upload, writes the file
at the outside path and answers `OK`.  For `GET`, the `startswith` string
check also lets through the sibling directory `/home/server_files_evil`,
whose string shares the root string as a prefix, so a file outside the
root is read and served. -/
theorem claim_C1_traversal_eval :
    withinRoot demoRoot (resolvePath demoRoot (txt "../evil")) = false ∧
    (servePut demoRoot emptyStorage (txt "../evil") (txt "SIZE 1" ++ [10] ++ [65])).1 =
      [Msg.line (txt "SEND_SIZE"), Msg.line (txt "OK")] ∧
    (servePut demoRoot emptyStorage (txt "../evil") (txt "SIZE 1" ++ [10] ++ [65])).2.1
      [txt "home", txt "evil"] = some (Entry.file [65]) ∧
    withinRoot demoRoot (resolvePath demoRoot (txt "../server_files_evil/x")) = false ∧
    serveGet demoRoot evilStorage (txt "../server_files_evil/x") =
      [Msg.line (txt "FOUND " ++ natDigits 1), Msg.raw [65]] := by decide

/-- Claim C2 (code bug, evaluated): on a 5000-byte line of `A` with no
newline, `_recv_line` accumulates and returns 4097 bytes, not the 4096 the
specification and the repository's own test
(`src/.github/tests/test_server_recv_line.py`, `test_recv_line_long_line`)
state: the loop appends the byte *before* testing `len(data) > 4096`. -/
theorem claim_C2_recv_line_4097 :
    ((recvLineBytes (List.replicate 5000 65)).1).length = 4097 ∧
    (recvLineV1 (List.replicate 5000 65)).length = 4097 := by
  have h904 : List.replicate 904 (65 : Nat) = 65 :: List.replicate 903 65 := by
    rw [show (904 : Nat) = 903 + 1 from rfl, List.replicate_succ]
  have hsplit : List.replicate 5000 (65 : Nat) =
      List.replicate 4096 65 ++ (65 : Nat) :: List.replicate 903 65 := by
    rw [show (5000 : Nat) = 4096 + 904 from rfl, List.replicate_add, h904]
  have hmem : (10 : Nat) ∉ List.replicate 4096 (65 : Nat) :=
    fun h => absurd (List.eq_of_mem_replicate h) (by omega)
  have hb := recvLineBytes_bound (List.replicate 4096 65) 65 (List.replicate 903 65)
    hmem (by omega) (by rw [List.length_replicate])
  constructor
  · rw [hsplit, hb]
    rw [List.length_append, List.length_replicate]
    rfl
  · rw [recvLineV1, hsplit, hb]
    rw [decodeIgnore_ascii _ (fun b hbm => by
      rcases List.mem_append.mp hbm with h | h
      · rw [List.eq_of_mem_replicate h]; omega
      · rw [List.mem_singleton.mp h]; omega)]
    rw [List.length_append, List.length_replicate]
    rfl

/-- Claim C10 (confirmed): when the first newline arrives within the
length bound, the reader consumes exactly the returned bytes plus the one
newline byte, leaving the rest of the stream (e.g. a binary payload after
a `SIZE` line) unconsumed; when the bound is exceeded it stops consuming
at once, leaving the rest of the oversized line unread. -/
theorem claim_C10_consumption (pre rest : List Nat) (b : Nat) :
    (10 ∉ pre → pre.length ≤ 4096 → recvLineBytes (pre ++ 10 :: rest) = (pre, rest)) ∧
    (10 ∉ pre → b ≠ 10 → pre.length = 4096 →
      recvLineBytes (pre ++ b :: rest) = (pre ++ [b], rest)) :=
  ⟨fun h1 h2 => recvLineBytes_newline pre rest h1 h2,
   fun h1 h2 h3 => recvLineBytes_bound pre b rest h1 h2 h3⟩

/-- Witness for C10 at concrete inputs. -/
theorem claim_C10_witness :
    recvLineBytes ([65] ++ 10 :: [66]) = ([65], [66]) ∧
    recvLineBytes (List.replicate 4096 65 ++ 66 :: [67]) =
      (List.replicate 4096 65 ++ [66], [67]) :=
  ⟨(claim_C10_consumption [65] [66] 0).1 (by decide) (by decide),
   (claim_C10_consumption (List.replicate 4096 65) [67] 66).2
     (fun h => absurd (List.eq_of_mem_replicate h) (by omega)) (by omega)
     (by rw [List.length_replicate])⟩

/-- Claim C6 counterexample: the second `_recv_line` variant (lines
519-531, also the client's, lines 144-155) applies `.strip()` and so does
*not* return the bytes before the newline unaltered: on `" x \n"` it
returns `"x"`, dropping the surrounding spaces. -/
theorem claim_C6_counterexample :
    recvLineV2 ([32, 120, 32] ++ 10 :: []) = [120] ∧
    recvLineV2 ([32, 120, 32] ++ 10 :: []) ≠ decodeIgnore [32, 120, 32] := by decide

/-- Claim C6 (amended): for a newline within the first 4096 bytes, the
byte accumulation is exactly the prefix before the first newline; the
first server variant returns it decoded (total lossy decoding, never an
exception), and the stripping variants return it decoded and then
whitespace-stripped. -/
theorem claim_C6_line_decode (pre rest : List Nat) (hmem : 10 ∉ pre)
    (hlen : pre.length ≤ 4095) :
    (recvLineBytes (pre ++ 10 :: rest)).1 = pre ∧
    recvLineV1 (pre ++ 10 :: rest) = decodeIgnore pre ∧
    recvLineV2 (pre ++ 10 :: rest) = pyStrip (decodeIgnore pre) := by
  have h := recvLineBytes_newline pre rest hmem (by omega)
  refine ⟨by rw [h], ?_, ?_⟩
  · rw [recvLineV1, h]
  · rw [recvLineV2, h]

/-- Witness for C6 at a concrete input. -/
theorem claim_C6_witness :
    (recvLineBytes ([72, 105] ++ 10 :: [33])).1 = [72, 105] ∧
    recvLineV1 ([72, 105] ++ 10 :: [33]) = decodeIgnore [72, 105] ∧
    recvLineV2 ([72, 105] ++ 10 :: [33]) = pyStrip (decodeIgnore [72, 105]) :=
  claim_C6_line_decode [72, 105] [33] (by decide) (by decide)

/-- Claim C4 (confirmed): for a `GET` whose resolved path stays inside the
storage root, if no regular file is stored there the only output is the
`NOT_FOUND` line with no data bytes after it; if a regular file is stored
there the output is the `FOUND <size>` line with the size equal to the
content length, followed by exactly the content bytes. -/
theorem claim_C4_get (root : List (List Nat)) (storage : Storage) (filename : List Nat)
    (hroot : root ≠ []) (hin : withinRoot root (resolvePath root filename) = true) :
    ((storage (resolvePath root filename) = none ∨
        storage (resolvePath root filename) = some Entry.dir) →
      serveGet root storage filename = [Msg.line (txt "NOT_FOUND")]) ∧
    (∀ c, storage (resolvePath root filename) = some (Entry.file c) →
      serveGet root storage filename =
        [Msg.line (txt "FOUND " ++ natDigits c.length), Msg.raw c]) := by
  have hchk := check_of_withinRoot root _ hroot hin
  have hG := serveGet_check_true root storage filename hchk
  constructor
  · intro hcase
    rw [hG]
    rcases hcase with h | h
    · rw [h]
    · rw [h]
  · intro c hc
    rw [hG, hc]
    simp [sendFileChunks_eq]

/-- Witness for C4 at concrete inputs. -/
theorem claim_C4_witness :
    serveGet [txt "files"] emptyStorage (txt "a") = [Msg.line (txt "NOT_FOUND")] ∧
    serveGet [txt "files"] oneFileStorage (txt "a") =
      [Msg.line (txt "FOUND " ++ natDigits 1), Msg.raw [7]] := by
  constructor
  · exact (claim_C4_get [txt "files"] emptyStorage (txt "a") (by decide) (by decide)).1
      (Or.inl (by decide))
  · exact (claim_C4_get [txt "files"] oneFileStorage (txt "a") (by decide) (by decide)).2
      [7] (by decide)

/-- Shared consequence of `servePut_parsed` and the closed form of the
receive loop: received bytes, final file content, untouched paths,
status-line condition and remaining stream, for any parsed size `n`. -/
theorem servePut_parsed_result (root : List (List Nat)) (storage : Storage)
    (filename : List Nat) (stream : List Nat) (n : Int)
    (hne : decodeIgnore (recvLineBytes stream).1 ≠ [])
    (hpre : (txt "SIZE ").isPrefixOf (decodeIgnore (recvLineBytes stream).1) = true)
    (hp : parseSizeArg (decodeIgnore (recvLineBytes stream).1) = some n) :
    (servePut root storage filename stream).1 =
      [Msg.line (txt "SEND_SIZE"),
        Msg.line (if (((if n ≤ 0 then [] else
              (recvLineBytes stream).2.take n.toNat).length : Int)) = n
          then txt "OK" else txt "ERR Incomplete transfer")] ∧
    (servePut root storage filename stream).2.1 (resolvePath root filename) =
      some (Entry.file (if n ≤ 0 then [] else (recvLineBytes stream).2.take n.toNat)) ∧
    (∀ p, p ≠ resolvePath root filename →
      (servePut root storage filename stream).2.1 p = storage p) ∧
    (servePut root storage filename stream).2.2 =
      (if n ≤ 0 then (recvLineBytes stream).2 else (recvLineBytes stream).2.drop n.toNat) := by
  have hcond : ¬(decodeIgnore (recvLineBytes stream).1 = [] ∨
      (txt "SIZE ").isPrefixOf (decodeIgnore (recvLineBytes stream).1) = false) := by
    rintro (h | h)
    · exact hne h
    · rw [hpre] at h
      exact absurd h (by simp)
  have hmain := servePut_parsed root storage filename stream n hcond hp
  have h1 : (recvPayloadInt n (recvLineBytes stream).2).1 =
      (if n ≤ 0 then [] else (recvLineBytes stream).2.take n.toNat) := by
    rw [recvPayloadInt_eq]
  have h2 : (recvPayloadInt n (recvLineBytes stream).2).2 =
      (if n ≤ 0 then (recvLineBytes stream).2 else (recvLineBytes stream).2.drop n.toNat) := by
    rw [recvPayloadInt_eq]
  rw [hmain]
  refine ⟨?_, ?_, ?_, ?_⟩
  · simp only [h1]
    have hiff : (n - (((if n ≤ 0 then [] else
          (recvLineBytes stream).2.take n.toNat).length : Nat) : Int) = 0) ↔
        ((((if n ≤ 0 then [] else
          (recvLineBytes stream).2.take n.toNat).length : Nat) : Int) = n) := by omega
    rw [if_congr hiff rfl rfl]
  · simp only [h1]
    simp
  · intro p hpne
    simp [hpne]
  · exact h2

/-- Claim C5 (confirmed): for a `PUT` whose size line parses to `n`, the
status line is `OK` exactly when the received byte count equals `n`
(otherwise `ERR Incomplete transfer`), and the file at the resolved path
holds exactly the bytes actually received — the first `min n available`
bytes of the remaining stream — while every other path is untouched. -/
theorem claim_C5_put_transfer (root : List (List Nat)) (storage : Storage)
    (filename : List Nat) (stream : List Nat) (n : Int)
    (hne : decodeIgnore (recvLineBytes stream).1 ≠ [])
    (hpre : (txt "SIZE ").isPrefixOf (decodeIgnore (recvLineBytes stream).1) = true)
    (hp : parseSizeArg (decodeIgnore (recvLineBytes stream).1) = some n) :
    (servePut root storage filename stream).1 =
      [Msg.line (txt "SEND_SIZE"),
        Msg.line (if (((if n ≤ 0 then [] else
              (recvLineBytes stream).2.take n.toNat).length : Int)) = n
          then txt "OK" else txt "ERR Incomplete transfer")] ∧
    (servePut root storage filename stream).2.1 (resolvePath root filename) =
      some (Entry.file (if n ≤ 0 then [] else (recvLineBytes stream).2.take n.toNat)) ∧
    (∀ p, p ≠ resolvePath root filename →
      (servePut root storage filename stream).2.1 p = storage p) := by
  have h := servePut_parsed_result root storage filename stream n hne hpre hp
  exact ⟨h.1, h.2.1, h.2.2.1⟩

/-- Witness for C5 at a concrete input. -/
theorem claim_C5_witness :
    (servePut [txt "files"] emptyStorage (txt "f") (txt "SIZE 2" ++ [10] ++ [7, 8, 9])).1 =
      [Msg.line (txt "SEND_SIZE"), Msg.line (txt "OK")] ∧
    (servePut [txt "files"] emptyStorage (txt "f") (txt "SIZE 2" ++ [10] ++ [7, 8, 9])).2.1
      (resolvePath [txt "files"] (txt "f")) = some (Entry.file [7, 8]) ∧
    (servePut [txt "files"] emptyStorage (txt "f") (txt "SIZE 2" ++ [10] ++ [7, 8, 9])).2.1
      [txt "other"] = emptyStorage [txt "other"] := by
  have h := claim_C5_put_transfer [txt "files"] emptyStorage (txt "f")
    (txt "SIZE 2" ++ [10] ++ [7, 8, 9]) 2 (by decide) (by decide) (by decide)
  refine ⟨?_, ?_, ?_⟩
  · rw [h.1]
    decide
  · rw [h.2.1]
    decide
  · exact h.2.2 [txt "other"] (by decide)

/-- Claim C8 (confirmed): a `PUT` answers `SEND_SIZE` first and reads one
line; an empty line or one not starting with `SIZE ` is answered with
`ERR Missing size`, a non-parsing size with `ERR Invalid size`; in both
error cases storage is untouched and no payload byte is consumed. -/
theorem claim_C8_put_size_errors (root : List (List Nat)) (storage : Storage)
    (filename : List Nat) (stream : List Nat) :
    ((decodeIgnore (recvLineBytes stream).1 = [] ∨
        (txt "SIZE ").isPrefixOf (decodeIgnore (recvLineBytes stream).1) = false) →
      servePut root storage filename stream =
        ([Msg.line (txt "SEND_SIZE"), Msg.line (txt "ERR Missing size")], storage,
          (recvLineBytes stream).2)) ∧
    (decodeIgnore (recvLineBytes stream).1 ≠ [] →
      (txt "SIZE ").isPrefixOf (decodeIgnore (recvLineBytes stream).1) = true →
      parseSizeArg (decodeIgnore (recvLineBytes stream).1) = none →
      servePut root storage filename stream =
        ([Msg.line (txt "SEND_SIZE"), Msg.line (txt "ERR Invalid size")], storage,
          (recvLineBytes stream).2)) := by
  constructor
  · exact servePut_missing root storage filename stream
  · intro h1 h2 h3
    apply servePut_invalid root storage filename stream ?_ h3
    rintro (h | h)
    · exact h1 h
    · rw [h2] at h
      exact absurd h (by simp)

/-- Witness for C8 at concrete inputs. -/
theorem claim_C8_witness :
    servePut [txt "files"] emptyStorage (txt "f") (txt "HELLO" ++ [10] ++ [1]) =
      ([Msg.line (txt "SEND_SIZE"), Msg.line (txt "ERR Missing size")], emptyStorage, [1]) ∧
    servePut [txt "files"] emptyStorage (txt "f") (txt "SIZE x" ++ [10] ++ [1]) =
      ([Msg.line (txt "SEND_SIZE"), Msg.line (txt "ERR Invalid size")], emptyStorage, [1]) := by
  constructor
  · have h := (claim_C8_put_size_errors [txt "files"] emptyStorage (txt "f")
      (txt "HELLO" ++ [10] ++ [1])).1 (Or.inr (by decide))
    rw [h]
    rw [show (recvLineBytes (txt "HELLO" ++ [10] ++ [1])).2 = [1] by decide]
  · have h := (claim_C8_put_size_errors [txt "files"] emptyStorage (txt "f")
      (txt "SIZE x" ++ [10] ++ [1])).2 (by decide) (by decide) (by decide)
    rw [h]
    rw [show (recvLineBytes (txt "SIZE x" ++ [10] ++ [1])).2 = [1] by decide]

/-- Claim C9 (confirmed): once the size line parses to `n` — any integer,
including `n ≤ 0` — the file at the resolved path is overwritten with
exactly the received bytes, destroying any previous content even when the
transfer then fails; for negative `n` no payload byte is read, the file
is left empty, and the answer is `ERR Incomplete transfer`. -/
theorem claim_C9_put_truncates (root : List (List Nat)) (storage : Storage)
    (filename : List Nat) (stream : List Nat) (n : Int)
    (hne : decodeIgnore (recvLineBytes stream).1 ≠ [])
    (hpre : (txt "SIZE ").isPrefixOf (decodeIgnore (recvLineBytes stream).1) = true)
    (hp : parseSizeArg (decodeIgnore (recvLineBytes stream).1) = some n) :
    ((servePut root storage filename stream).2.1 (resolvePath root filename) =
      some (Entry.file (if n ≤ 0 then [] else (recvLineBytes stream).2.take n.toNat))) ∧
    (n < 0 →
      (servePut root storage filename stream).1 =
        [Msg.line (txt "SEND_SIZE"), Msg.line (txt "ERR Incomplete transfer")] ∧
      (servePut root storage filename stream).2.1 (resolvePath root filename) =
        some (Entry.file []) ∧
      (servePut root storage filename stream).2.2 = (recvLineBytes stream).2) := by
  have h := servePut_parsed_result root storage filename stream n hne hpre hp
  refine ⟨h.2.1, fun hneg => ⟨?_, ?_, ?_⟩⟩
  · rw [h.1]
    have hle : n ≤ 0 := le_of_lt hneg
    rw [if_pos hle]
    rw [if_neg (by simp; omega)]
  · rw [h.2.1, if_pos (le_of_lt hneg)]
  · rw [h.2.2.2, if_pos (le_of_lt hneg)]

/-- Witness for C9 at a concrete input (a negative declared size). -/
theorem claim_C9_witness :
    ((servePut [txt "files"] oneFileStorage (txt "f")
        (txt "SIZE -4" ++ [10] ++ [1, 2])).2.1 (resolvePath [txt "files"] (txt "f")) =
      some (Entry.file [])) ∧
    (servePut [txt "files"] oneFileStorage (txt "f") (txt "SIZE -4" ++ [10] ++ [1, 2])).1 =
      [Msg.line (txt "SEND_SIZE"), Msg.line (txt "ERR Incomplete transfer")] ∧
    (servePut [txt "files"] oneFileStorage (txt "f")
        (txt "SIZE -4" ++ [10] ++ [1, 2])).2.2 = [1, 2] := by
  have h := claim_C9_put_truncates [txt "files"] oneFileStorage (txt "f")
    (txt "SIZE -4" ++ [10] ++ [1, 2]) (-4) (by decide) (by decide) (by decide)
  have h2 := h.2 (by omega)
  refine ⟨h2.2.1, h2.1, ?_⟩
  rw [h2.2.2]
  decide

/-- Claim C7 counterexample: the command line is `strip()`ped before the
split, so the argument is *not* the remainder of the line verbatim: on
`"GET a.txt "` the parsed filename is `"a.txt"`, not `"a.txt "`. -/
theorem claim_C7_counterexample :
    (parseCommand (txt "GET a.txt ")).2 = txt "a.txt" ∧
    (parseCommand (txt "GET a.txt ")).2 ≠ txt "a.txt " := by decide

/-- Claim C7 (amended): the first line is stripped of outer whitespace,
then split on the first space; the tag is matched case-insensitively (via
`upper()`); the argument is the remainder of the *stripped* line (empty
when there is no space); a nonempty line whose upper-cased tag is neither
`GET` nor `PUT` is answered with exactly `ERR Unknown command`. -/
theorem claim_C7_parse_dispatch (line tok rest : List Nat) (root : List (List Nat))
    (storage : Storage) (stream : List Nat) :
    (pyStrip line = tok ++ 32 :: rest → 32 ∉ tok →
      parseCommand line = (pyUpper tok, rest)) ∧
    (32 ∉ pyStrip line → parseCommand line = (pyUpper (pyStrip line), [])) ∧
    (decodeIgnore (recvLineBytes stream).1 ≠ [] →
      (parseCommand (decodeIgnore (recvLineBytes stream).1)).1 = txt "GET" →
      handleClient root storage stream =
        (serveGet root storage (parseCommand (decodeIgnore (recvLineBytes stream).1)).2,
          storage, (recvLineBytes stream).2)) ∧
    (decodeIgnore (recvLineBytes stream).1 ≠ [] →
      (parseCommand (decodeIgnore (recvLineBytes stream).1)).1 ≠ txt "GET" →
      (parseCommand (decodeIgnore (recvLineBytes stream).1)).1 ≠ txt "PUT" →
      handleClient root storage stream =
        ([Msg.line (txt "ERR Unknown command")], storage, (recvLineBytes stream).2)) := by
  refine ⟨?_, ?_, ?_, ?_⟩
  · intro hsp hmem
    simp only [parseCommand]
    rw [hsp, splitFirstSpace_of_space tok rest hmem]
    rfl
  · intro hmem
    simp only [parseCommand]
    rw [splitFirstSpace_no_space _ hmem]
    rfl
  · intro hne hget
    simp only [handleClient]
    rw [if_neg hne, if_pos hget]
  · intro hne hget hput
    simp only [handleClient]
    rw [if_neg hne, if_neg hget, if_neg hput]

/-- Witness for C7 at concrete inputs. -/
theorem claim_C7_witness :
    parseCommand (txt "get a b") = (pyUpper (txt "get"), txt "a b") ∧
    parseCommand (txt "LIST") = (pyUpper (pyStrip (txt "LIST")), []) ∧
    handleClient [txt "files"] emptyStorage (txt "get x" ++ [10]) =
      (serveGet [txt "files"] emptyStorage
        (parseCommand (decodeIgnore (recvLineBytes (txt "get x" ++ [10])).1)).2,
        emptyStorage, (recvLineBytes (txt "get x" ++ [10])).2) ∧
    handleClient [txt "files"] emptyStorage (txt "FOO" ++ [10]) =
      ([Msg.line (txt "ERR Unknown command")], emptyStorage,
        (recvLineBytes (txt "FOO" ++ [10])).2) := by
  refine ⟨?_, ?_, ?_, ?_⟩
  · exact (claim_C7_parse_dispatch (txt "get a b") (txt "get") (txt "a b") []
      emptyStorage []).1 (by decide) (by decide)
  · exact (claim_C7_parse_dispatch (txt "LIST") [] [] [] emptyStorage []).2.1 (by decide)
  · exact (claim_C7_parse_dispatch [] [] [] [txt "files"] emptyStorage
      (txt "get x" ++ [10])).2.2.1 (by decide) (by decide)
  · exact (claim_C7_parse_dispatch [] [] [] [txt "files"] emptyStorage
      (txt "FOO" ++ [10])).2.2.2 (by decide) (by decide) (by decide)

/-! ### Decimal length bounds and powers of ten -/

/-- `str(n)` has at most `k` digits when `n < 10 ^ k`. -/
theorem natDigits_length_le : ∀ (k n : Nat), n < 10 ^ k → 1 ≤ k → (natDigits n).length ≤ k := by
  intro k
  induction k with
  | zero => intro n _ h1; omega
  | succ k ih =>
    intro n hn _
    by_cases h10 : n < 10
    · rw [natDigits_lt n h10]
      simp
    · rw [natDigits_ge n h10, List.length_append, List.length_cons, List.length_nil]
      have hk1 : 1 ≤ k := by
        rcases Nat.eq_zero_or_pos k with h | h
        · subst h
          rw [pow_one] at hn
          omega
        · omega
      have hdiv : n / 10 < 10 ^ k := by
        rw [pow_succ] at hn
        exact (Nat.div_lt_iff_lt_mul (by omega)).mpr hn
      have := ih (n / 10) hdiv hk1
      omega

/-- `str(10 ^ k)` is a one followed by `k` zeros. -/
theorem natDigits_pow10 : ∀ k : Nat, natDigits (10 ^ k) = 49 :: List.replicate k 48 := by
  intro k
  induction k with
  | zero =>
    rw [pow_zero, natDigits_lt 1 (by omega)]
    rfl
  | succ k ih =>
    have hpow : (10 : Nat) ^ (k + 1) = 10 ^ k * 10 := pow_succ 10 k
    have h10 : ¬10 ^ (k + 1) < 10 := by
      have hx : 0 < (10 : Nat) ^ k := pow_pos (by omega) k
      rw [hpow]
      omega
    rw [natDigits_ge _ h10]
    have hdiv : 10 ^ (k + 1) / 10 = 10 ^ k := by
      rw [hpow]
      exact Nat.mul_div_cancel _ (by omega)
    have hmod : 10 ^ (k + 1) % 10 = 0 := by
      rw [hpow]
      omega
    rw [hdiv, hmod, ih]
    rw [show (48 + 0 : Nat) = 48 from rfl, List.cons_append, ← List.replicate_succ']

/-- Claim C3 (amended): for every byte string whose size's decimal form
fits inside the 4096-byte line bound (every `N < 10 ^ 4091`), uploading it
with a well-formed `PUT` (`SIZE <N>` line then exactly `N` payload bytes)
is acknowledged with `OK`, and a subsequent `GET` of the same name serves
`FOUND <N>` followed by a byte-identical copy. -/
theorem claim_C3_roundtrip (root : List (List Nat)) (storage : Storage) (content : List Nat)
    (hroot : root ≠ []) (hnorm : txt ".." ∉ root)
    (hsize : content.length < 10 ^ 4091) :
    (servePut root storage (txt "data.bin")
        (txt "SIZE " ++ natDigits content.length ++ [10] ++ content)).1 =
      [Msg.line (txt "SEND_SIZE"), Msg.line (txt "OK")] ∧
    serveGet root
      ((servePut root storage (txt "data.bin")
        (txt "SIZE " ++ natDigits content.length ++ [10] ++ content)).2.1)
      (txt "data.bin") =
      [Msg.line (txt "FOUND " ++ natDigits content.length), Msg.raw content] := by
  have hdigits := natDigits_digits content.length
  have hdlen : (natDigits content.length).length ≤ 4091 :=
    natDigits_length_le 4091 content.length hsize (by omega)
  have hstream : txt "SIZE " ++ natDigits content.length ++ [10] ++ content =
      (txt "SIZE " ++ natDigits content.length) ++ 10 :: content := by
    rw [List.append_assoc (txt "SIZE " ++ natDigits content.length) [10] content]
    rfl
  have hmem : 10 ∉ txt "SIZE " ++ natDigits content.length := by
    intro h
    rcases List.mem_append.mp h with h | h
    · exact absurd h (by decide)
    · have := hdigits 10 h
      omega
  have hlen : (txt "SIZE " ++ natDigits content.length).length ≤ 4096 := by
    rw [List.length_append, show (txt "SIZE ").length = 5 from rfl]
    omega
  have hline := recvLineBytes_newline (txt "SIZE " ++ natDigits content.length) content hmem hlen
  have hsm : recvLineBytes (txt "SIZE " ++ natDigits content.length ++ [10] ++ content) =
      (txt "SIZE " ++ natDigits content.length, content) := by
    rw [hstream, hline]
  have hdec : decodeIgnore (txt "SIZE " ++ natDigits content.length) =
      txt "SIZE " ++ natDigits content.length := by
    apply decodeIgnore_ascii
    intro b hb
    rcases List.mem_append.mp hb with h | h
    · have : b ∈ txt "SIZE " := h
      fin_cases this <;> decide
    · have := hdigits b h
      omega
  have hL : decodeIgnore (recvLineBytes
      (txt "SIZE " ++ natDigits content.length ++ [10] ++ content)).1 =
      txt "SIZE " ++ natDigits content.length := by
    rw [hsm, hdec]
  have hne : decodeIgnore (recvLineBytes
      (txt "SIZE " ++ natDigits content.length ++ [10] ++ content)).1 ≠ [] := by
    rw [hL]
    intro h
    exact absurd (List.append_eq_nil.mp h).1 (by decide)
  have hpfx : (txt "SIZE ").isPrefixOf (decodeIgnore (recvLineBytes
      (txt "SIZE " ++ natDigits content.length ++ [10] ++ content)).1) = true := by
    rw [hL, List.isPrefixOf_iff_prefix]
    exact List.prefix_append _ _
  have hp : parseSizeArg (decodeIgnore (recvLineBytes
      (txt "SIZE " ++ natDigits content.length ++ [10] ++ content)).1) =
      some ((content.length : Nat) : Int) := by
    rw [hL]
    exact parseSizeArg_sizeDigits content.length
  have hres := servePut_parsed_result root storage (txt "data.bin")
    (txt "SIZE " ++ natDigits content.length ++ [10] ++ content)
    ((content.length : Nat) : Int) hne hpfx hp
  have hrecvd : (if ((content.length : Nat) : Int) ≤ 0 then []
      else (recvLineBytes
        (txt "SIZE " ++ natDigits content.length ++ [10] ++ content)).2.take
        ((content.length : Nat) : Int).toNat) = content := by
    rw [hsm]
    by_cases h0 : ((content.length : Nat) : Int) ≤ 0
    · rw [if_pos h0]
      have : content.length = 0 := by omega
      exact (List.length_eq_zero.mp this).symm
    · rw [if_neg h0]
      rw [Int.toNat_natCast]
      exact List.take_length content
  constructor
  · rw [hres.1, hrecvd]
    rw [if_pos rfl]
  · have hpath := resolvePath_databin root hnorm
    have hin : withinRoot root (resolvePath root (txt "data.bin")) = true := by
      rw [hpath, withinRoot, List.isPrefixOf_iff_prefix]
      exact List.prefix_append _ _
    have hchk := check_of_withinRoot root _ hroot hin
    rw [serveGet_check_true root _ (txt "data.bin") hchk]
    have hstore := hres.2.1
    rw [hrecvd] at hstore
    rw [hstore]
    simp [sendFileChunks_eq]

/-- Witness for the amended C3 at a concrete input. -/
theorem claim_C3_witness :
    (servePut [txt "files"] emptyStorage (txt "data.bin")
        (txt "SIZE " ++ natDigits ([1, 2, 3] : List Nat).length ++ [10] ++ [1, 2, 3])).1 =
      [Msg.line (txt "SEND_SIZE"), Msg.line (txt "OK")] ∧
    serveGet [txt "files"]
      ((servePut [txt "files"] emptyStorage (txt "data.bin")
        (txt "SIZE " ++ natDigits ([1, 2, 3] : List Nat).length ++ [10] ++ [1, 2, 3])).2.1)
      (txt "data.bin") =
      [Msg.line (txt "FOUND " ++ natDigits ([1, 2, 3] : List Nat).length), Msg.raw [1, 2, 3]] :=
  claim_C3_roundtrip [txt "files"] emptyStorage [1, 2, 3] (by decide) (by decide)
    (by
      have h : (10 : Nat) ^ 1 ≤ 10 ^ 4091 := Nat.pow_le_pow_right (by omega) (by omega)
      rw [pow_one] at h
      simp only [List.length_cons, List.length_nil]
      omega)

/-- Claim C3 counterexample: the round trip is *not* byte-identical for
every size.  For `N = 10 ^ 4091` the `SIZE <N>` line is 4098 bytes long;
`_recv_line` stops after storing 4097 bytes — the whole line but *not* its
newline — so the newline byte is consumed by the payload loop as the first
data byte.  The upload is still acknowledged `OK`, but the stored file
starts with the stray newline byte instead of the first content byte, and
the following `GET` serves that corrupted copy. -/
theorem claim_C3_counterexample :
    serveGet [txt "files"]
      ((servePut [txt "files"] emptyStorage (txt "data.bin")
        (txt "SIZE " ++ natDigits (10 ^ 4091) ++ [10] ++ List.replicate (10 ^ 4091) 0)).2.1)
      (txt "data.bin") ≠
    [Msg.line (txt "FOUND " ++ natDigits (10 ^ 4091)),
      Msg.raw (List.replicate (10 ^ 4091) 0)] := by
  have hNpos : 0 < (10 : Nat) ^ 4091 := pow_pos (by omega) 4091
  have hD : natDigits (10 ^ 4091) = 49 :: List.replicate 4091 48 := natDigits_pow10 4091
  have h4091 : List.replicate 4091 (48 : Nat) = List.replicate 4090 48 ++ [48] := by
    rw [show (4091 : Nat) = 4090 + 1 from rfl, List.replicate_succ']
  have hstream : txt "SIZE " ++ natDigits (10 ^ 4091) ++ [10] ++
      List.replicate (10 ^ 4091) 0 =
      (txt "SIZE " ++ 49 :: List.replicate 4090 48) ++
        48 :: (10 :: List.replicate (10 ^ 4091) 0) := by
    rw [hD, h4091]
    simp only [List.append_assoc, List.cons_append, List.singleton_append, List.nil_append]
  have hmem' : 10 ∉ txt "SIZE " ++ 49 :: List.replicate 4090 48 := by
    intro h
    rcases List.mem_append.mp h with h | h
    · exact absurd h (by decide)
    · rcases List.mem_cons.mp h with h | h
      · exact absurd h (by omega)
      · have := List.eq_of_mem_replicate h
        omega
  have hlen' : (txt "SIZE " ++ 49 :: List.replicate 4090 48).length = 4096 := by
    rw [List.length_append, List.length_cons, List.length_replicate]
    rfl
  have hb := recvLineBytes_bound (txt "SIZE " ++ 49 :: List.replicate 4090 48) 48
    (10 :: List.replicate (10 ^ 4091) 0) hmem' (by omega) hlen'
  have hpre_eq : (txt "SIZE " ++ 49 :: List.replicate 4090 48) ++ [48] =
      txt "SIZE " ++ natDigits (10 ^ 4091) := by
    rw [hD, h4091]
    simp only [List.append_assoc, List.cons_append, List.singleton_append, List.nil_append]
  have hsm : recvLineBytes (txt "SIZE " ++ natDigits (10 ^ 4091) ++ [10] ++
      List.replicate (10 ^ 4091) 0) =
      (txt "SIZE " ++ natDigits (10 ^ 4091), 10 :: List.replicate (10 ^ 4091) 0) := by
    rw [hstream, hb, hpre_eq]
  have hdigits := natDigits_digits (10 ^ 4091)
  have hdec : decodeIgnore (txt "SIZE " ++ natDigits (10 ^ 4091)) =
      txt "SIZE " ++ natDigits (10 ^ 4091) := by
    apply decodeIgnore_ascii
    intro b hbm
    rcases List.mem_append.mp hbm with h | h
    · have : b ∈ txt "SIZE " := h
      fin_cases this <;> decide
    · have := hdigits b h
      omega
  have hL : decodeIgnore (recvLineBytes (txt "SIZE " ++ natDigits (10 ^ 4091) ++ [10] ++
      List.replicate (10 ^ 4091) 0)).1 = txt "SIZE " ++ natDigits (10 ^ 4091) := by
    rw [hsm, hdec]
  have hne : decodeIgnore (recvLineBytes (txt "SIZE " ++ natDigits (10 ^ 4091) ++ [10] ++
      List.replicate (10 ^ 4091) 0)).1 ≠ [] := by
    rw [hL]
    intro h
    exact absurd (List.append_eq_nil.mp h).1 (by decide)
  have hpfx : (txt "SIZE ").isPrefixOf (decodeIgnore (recvLineBytes
      (txt "SIZE " ++ natDigits (10 ^ 4091) ++ [10] ++
        List.replicate (10 ^ 4091) 0)).1) = true := by
    rw [hL, List.isPrefixOf_iff_prefix]
    exact List.prefix_append _ _
  have hp : parseSizeArg (decodeIgnore (recvLineBytes
      (txt "SIZE " ++ natDigits (10 ^ 4091) ++ [10] ++
        List.replicate (10 ^ 4091) 0)).1) = some (((10 ^ 4091 : Nat) : Int)) := by
    rw [hL]
    exact parseSizeArg_sizeDigits (10 ^ 4091)
  have hres := servePut_parsed_result [txt "files"] emptyStorage (txt "data.bin")
    (txt "SIZE " ++ natDigits (10 ^ 4091) ++ [10] ++ List.replicate (10 ^ 4091) 0)
    (((10 ^ 4091 : Nat) : Int)) hne hpfx hp
  have hnot0 : ¬((10 ^ 4091 : Nat) : Int) ≤ 0 := by
    have h0 : (0 : Int) < ((10 ^ 4091 : Nat) : Int) := by exact_mod_cast hNpos
    omega
  have hs2 : (recvLineBytes (txt "SIZE " ++ natDigits (10 ^ 4091) ++ [10] ++
      List.replicate (10 ^ 4091) 0)).2 = 10 :: List.replicate (10 ^ 4091) 0 := by
    rw [hsm]
  have hrecvd : (if ((10 ^ 4091 : Nat) : Int) ≤ 0 then []
      else (recvLineBytes (txt "SIZE " ++ natDigits (10 ^ 4091) ++ [10] ++
        List.replicate (10 ^ 4091) 0)).2.take ((10 ^ 4091 : Nat) : Int).toNat) =
      10 :: List.replicate (10 ^ 4091 - 1) 0 := by
    rw [hs2, if_neg hnot0, Int.toNat_natCast, List.take_cons hNpos, List.take_replicate,
      min_eq_left (by omega)]
  have hstore := hres.2.1
  rw [hrecvd] at hstore
  have hpath := resolvePath_databin [txt "files"] (by decide)
  have hin : withinRoot [txt "files"] (resolvePath [txt "files"] (txt "data.bin")) = true := by
    rw [hpath, withinRoot, List.isPrefixOf_iff_prefix]
    exact List.prefix_append _ _
  have hchk := check_of_withinRoot [txt "files"] _ (by decide) hin
  intro hcontra
  rw [serveGet_check_true [txt "files"] _ (txt "data.bin") hchk, hstore] at hcontra
  simp only [sendFileChunks_eq] at hcontra
  simp only [List.cons.injEq, Msg.raw.injEq, and_true] at hcontra
  have hFeq : (10 : Nat) :: List.replicate (10 ^ 4091 - 1) 0 =
      List.replicate (10 ^ 4091) 0 := hcontra.2
  have hrep : List.replicate (10 ^ 4091) (0 : Nat) =
      0 :: List.replicate (10 ^ 4091 - 1) 0 := by
    conv_lhs => rw [show (10 : Nat) ^ 4091 = 10 ^ 4091 - 1 + 1 from by omega]
    rw [List.replicate_succ]
  rw [hrep] at hFeq
  simp at hFeq
